import Mathlib

/-!
Shallow embedding of `src/dataviva/static/js/modules/tree_map.js`.

The core of the module is:
* `urls` — the three resource locators built from page attributes;
* `buildData` — the enrichment pipeline: build a header-keyed record per
  positional row, then run a backward in-place filtering loop that replaces
  the squares (entity) code and the group code by localized names, attaches
  an icon path when the grouping column is the literal "section", and removes
  (via `splice`) any row whose processing throws;
* `depthSelectorHelper` — the depth reordering helper (JS `slice`, `splice`
  with `indexOf`, prepend, then wrap each level as a single-entry mapping
  from localized label to level identifier);
* the `format.text` rule of the render configuration.

JavaScript semantics modelled explicitly: object property read of a missing
key yields `undefined`; `obj[k]` where `obj` itself is `undefined` throws
(modelled by `Option`/exclusion); string coercion turns `undefined` into the
string "undefined"; `Array.prototype.splice` with a negative start counts
from the end of the array; `indexOf` returns -1 when the element is absent.
The globals `lang`, `squares`, `group` and the localization `dictionary` are
passed as explicit parameters.
-/

namespace TreeMap

/-- Runtime value of an observation cell or enriched-record field: a string,
or JavaScript `undefined` (the result of reading a missing property or a
missing localized name field). -/
inductive Value where
  | str : String → Value
  | undefined : Value
deriving DecidableEq, Repr

/-- JavaScript string coercion of a value used as an object key or inside
string concatenation: `undefined` coerces to the string "undefined". -/
def Value.toKey : Value → String
  | .str s => s
  | .undefined => "undefined"

/-- Lift an optional string (a property read) to a runtime value: a missing
property reads as `undefined`. -/
def Value.ofOption : Option String → Value
  | some s => .str s
  | none => .undefined

/-- An enriched record: a JavaScript object as an association list from
property name to value, in insertion order. -/
def Record := List (String × Value)
deriving DecidableEq, Repr

/-- JavaScript property assignment `r[k] = v`: overwrite the entry if the key
is present, otherwise append it. -/
def setKey : Record → String → Value → Record
  | [], k, v => [(k, v)]
  | (k1, v1) :: rest, k, v =>
      if k1 = k then (k, v) :: rest else (k1, v1) :: setKey rest k v

/-- JavaScript property read `r[k]`: the stored value, or `undefined` when
the key is absent. -/
def getKeyD : Record → String → Value
  | [], _ => .undefined
  | (k1, v1) :: rest, k => if k1 = k then v1 else getKeyD rest k

/-- Whether a record has a property named `k`. -/
def hasKey : Record → String → Bool
  | [], _ => false
  | (k1, _) :: rest, k => k1 = k || hasKey rest k

/-- A metadata record returned by a metadata endpoint: an object whose fields
(such as `name_en`) are strings. -/
def MetaRecord := List (String × String)
deriving DecidableEq, Repr

/-- Field read on a metadata record; `none` models reading a missing field
(which yields `undefined` in JavaScript, without throwing). -/
def getField : MetaRecord → String → Option String
  | [], _ => none
  | (k1, v1) :: rest, k => if k1 = k then some v1 else getField rest k

/-- A lookup table (`squaresMetadata` / `groupMetadata`): an object mapping
string codes to metadata records. -/
def Lookup := List (String × MetaRecord)
deriving DecidableEq, Repr

/-- Key read on a lookup table; `none` models `undefined`, so that a
subsequent property access on the result throws (a miss). -/
def lookupTable : Lookup → String → Option MetaRecord
  | [], _ => none
  | (k1, v1) :: rest, k => if k1 = k then some v1 else lookupTable rest k

/-- The dataset response `responseApi`: a `headers` sequence and positional
`data` rows. -/
structure Table where
  headers : List String
  data : List (List Value)
deriving DecidableEq, Repr

/-- JavaScript `Array.prototype.indexOf`: index of the first occurrence, or
-1 when absent. -/
def jsIndexOf : List String → String → Int
  | [], _ => -1
  | a :: as, x =>
    if a = x then 0
    else if jsIndexOf as x < 0 then -1
    else jsIndexOf as x + 1

/-- Start index of a `splice`, per the ECMAScript clamping rule: a negative
start counts from the end (clamped at 0), a start past the end is clamped to
the length. -/
def spliceStart (len : Nat) (i : Int) : Nat :=
  (if i < 0 then max ((len : Int) + i) 0 else min i (len : Int)).toNat

/-- JavaScript `arr.splice(i, 1)` as a pure function: the single element at
the clamped start index is removed (nothing is removed when the start is past
the end). -/
def spliceRemoveOne {α : Type} (l : List α) (i : Int) : List α :=
  l.take (spliceStart l.length i) ++ l.drop (spliceStart l.length i + 1)

/-- Source: `getAttrByName` inside `buildData` — positional read of the
column named `attr`, via `headers.indexOf(attr)`; out-of-range (including
index -1) reads as `undefined`. -/
def getAttrByName (headers : List String) (item : List Value) (attr : String) : Value :=
  let i := jsIndexOf headers attr
  if i < 0 then .undefined else (item.get? i.toNat).getD .undefined

/-- Source: the first `forEach` of `buildData` — build one object per row,
assigning `dataItem[header] = getAttrByName(item, header)` for each header in
order. -/
def buildItem (headers : List String) (item : List Value) : Record :=
  headers.foldl (fun d h => setKey d h (getAttrByName headers item h)) []

/-- Source: first statement of the `try` block —
`data[i][squares] = squaresMetadata[data[i][squares]]["name_" + lang]` after
the record lookup succeeded: a present record with a missing `name_<lang>`
field assigns `undefined` (it does not throw). -/
def stage1 (lang squares : String) (srec : MetaRecord) (d : Record) : Record :=
  setKey d squares (Value.ofOption (getField srec ("name_" ++ lang)))

/-- Source: second statement of the `try` block — when `group == "section"`,
attach `data[i]["icon"] = "/static/img/icons/" + group + "/section_" +
data[i][group] + ".png"`, reading the current (still raw) group code. -/
def stage2 (group : String) (d1 : Record) : Record :=
  if group = "section" then
    setKey d1 "icon"
      (.str ("/static/img/icons/" ++ group ++ "/section_"
        ++ (getKeyD d1 group).toKey ++ ".png"))
  else d1

/-- Source: third statement of the `try` block —
`data[i][group] = groupMetadata[data[i][group]]["name_" + lang]` after the
record lookup succeeded. -/
def stage3 (lang group : String) (grec : MetaRecord) (d2 : Record) : Record :=
  setKey d2 group (Value.ofOption (getField grec ("name_" ++ lang)))

/-- Source: the body of the backward filtering loop of `buildData`, for one
row. Sequencing follows the `try` block: (1) `squaresMetadata` lookup of the
squares code — a missing key throws; (2) the conditional icon attachment;
(3) `groupMetadata` lookup of the group code as it stands after the first
two statements — a missing key throws. `none` means the row is spliced out
by the `catch`. -/
def tryEnrich (lang squares group : String) (sm gm : Lookup) (d : Record) : Option Record :=
  match lookupTable sm (getKeyD d squares).toKey with
  | none => none
  | some srec =>
    match lookupTable gm
        (getKeyD (stage2 group (stage1 lang squares srec d)) group).toKey with
    | none => none
    | some grec => some (stage3 lang group grec (stage2 group (stage1 lang squares srec d)))

/-- Source: the backward `for` loop of `buildData`. Iterating from the last
index down and splicing the current index only affects positions at or after
it, so the loop processes each row independently, keeping its enrichment or
removing it; this is that per-row pass, in row order. -/
def enrichLoop (lang squares group : String) (sm gm : Lookup) : List Record → List Record
  | [] => []
  | d :: rest =>
    match tryEnrich lang squares group sm gm d with
    | some d2 => d2 :: enrichLoop lang squares group sm gm rest
    | none => enrichLoop lang squares group sm gm rest

/-- Source: `buildData(responseApi, squaresMetadata, groupMetadata)` — build
one record per positional row, then run the filtering/enrichment loop. -/
def buildData (lang squares group : String) (responseApi : Table) (sm gm : Lookup) :
    List Record :=
  enrichLoop lang squares group sm gm
    (responseApi.data.map (buildItem responseApi.headers))

/-- Source: `depthSelectorHelper(array, element)` inside `loadViz` —
`slice(0)` copy, `splice(indexOf(element), 1)`, `splice(0, 0, element)`,
then each item replaced by the single-entry mapping from `dictionary[item]`
to `item` (modelled as a label/identifier pair). -/
def depthSelectorHelper (dictionary : String → String) (array : List String)
    (element : String) : List (String × String) :=
  let newArray := spliceRemoveOne array (jsIndexOf array element)
  let newArray2 := element :: newArray
  newArray2.map (fun item => (dictionary item, item))

/-- Source: the `format.text` rule of the render configuration — localized
label for the literal texts "value" and "share", identity otherwise. -/
def formatText (dictionary : String → String) (text : String) : String :=
  if text = "value" || text = "share" then dictionary text else text

/-- Source: the `urls` array — squares metadata locator, group metadata
locator with the `section → product_section` alias, and the dataset locator. -/
def urls (squares group dataset filters : String) : List String :=
  ["http://api.staging.dataviva.info/metadata/" ++ squares,
   "http://api.staging.dataviva.info/metadata/" ++
     (if group = "section" then "product_section" else group),
   "http://api.staging.dataviva.info/" ++ dataset ++ "/year/" ++ squares ++ "/" ++ group
     ++ "?" ++ filters]

/-- The three response payloads as they stand in the calling scope around
the `buildData` call; used to state that the call leaves them unchanged. -/
structure PipelineState where
  responseApi : Table
  squaresMetadata : Lookup
  groupMetadata : Lookup
deriving DecidableEq

/-- State-passing form of `buildData`: every write in the source targets the
fresh local array `data` or a fresh `dataItem`; the three inputs are only
read, so the post-call state is reassembled from reads of the inputs. -/
def buildDataSt (lang squares group : String) (s : PipelineState) :
    List Record × PipelineState :=
  (buildData lang squares group s.responseApi s.squaresMetadata s.groupMetadata,
   ⟨s.responseApi, s.squaresMetadata, s.groupMetadata⟩)

/-- State-passing form of `depthSelectorHelper`: the source copies the input
with `slice(0)` (modelled by `take array.length`) and mutates only the copy;
the second component is the input array as it stands after the call. -/
def depthSelectorHelperSt (dictionary : String → String) (array : List String)
    (element : String) : List (String × String) × List String :=
  let newArray := array.take array.length
  let newArray2 := spliceRemoveOne newArray (jsIndexOf newArray element)
  let newArray3 := element :: newArray2
  (newArray3.map (fun item => (dictionary item, item)), array)

/-- Whether a built row resolves: both its squares (entity) code and its
group code are present keys of their lookup tables. -/
def resolvable (squares group : String) (sm gm : Lookup) (d : Record) : Bool :=
  (lookupTable sm (getKeyD d squares).toKey).isSome
    && (lookupTable gm (getKeyD d group).toKey).isSome

/-- Concrete localization dictionary used in closed instances: label a level
`x` as `Lx`. -/
def demoDict (s : String) : String :=
  "L" ++ s

/-! Helper lemmas about records. -/

theorem getKeyD_setKey (d : Record) (k k2 : String) (v : Value) :
    getKeyD (setKey d k v) k2 = if k2 = k then v else getKeyD d k2 := by
  induction d with
  | nil => simp [setKey, getKeyD, eq_comm]
  | cons p rest ih =>
    obtain ⟨k1, v1⟩ := p
    by_cases h1 : k1 = k <;> by_cases h2 : k2 = k <;> by_cases h3 : k1 = k2 <;>
      simp_all [setKey, getKeyD]

theorem hasKey_setKey (d : Record) (k k2 : String) (v : Value) :
    hasKey (setKey d k v) k2 = (decide (k = k2) || hasKey d k2) := by
  induction d with
  | nil => simp [setKey, hasKey]
  | cons p rest ih =>
    obtain ⟨k1, v1⟩ := p
    by_cases h1 : k1 = k <;> by_cases h2 : k2 = k <;> by_cases h3 : k1 = k2 <;>
      simp_all [setKey, hasKey]

theorem hasKey_foldl_setKey (f : String → Value) (hs : List String) (acc : Record)
    (k : String) :
    hasKey (hs.foldl (fun d h => setKey d h (f h)) acc) k = true ↔
      (hasKey acc k = true ∨ k ∈ hs) := by
  induction hs generalizing acc with
  | nil => simp
  | cons h t ih =>
    simp only [List.foldl_cons, ih, hasKey_setKey, Bool.or_eq_true, decide_eq_true_eq,
      List.mem_cons]
    constructor
    · rintro (⟨rfl | hacc⟩ | ht)
      · exact Or.inr (Or.inl rfl)
      · exact Or.inl hacc
      · exact Or.inr (Or.inr ht)
    · rintro (hacc | rfl | ht)
      · exact Or.inl (Or.inr hacc)
      · exact Or.inl (Or.inl rfl)
      · exact Or.inr ht

theorem hasKey_buildItem (headers : List String) (item : List Value) (k : String) :
    hasKey (buildItem headers item) k = true ↔ k ∈ headers := by
  rw [buildItem]
  have := hasKey_foldl_setKey (fun h => getAttrByName headers item h) headers [] k
  simpa [hasKey] using this

/-! Helper lemmas about `jsIndexOf` and `spliceRemoveOne`. -/

theorem jsIndexOf_of_not_mem (a : List String) (e : String) (h : e ∉ a) :
    jsIndexOf a e = -1 := by
  induction a with
  | nil => rfl
  | cons x xs ih =>
    have hx : ¬ x = e := fun heq => h (heq ▸ List.mem_cons_self x xs)
    have hxs : e ∉ xs := fun hm => h (List.mem_cons_of_mem x hm)
    rw [jsIndexOf, if_neg hx, ih hxs]
    rfl

theorem jsIndexOf_bounds_of_mem (a : List String) (e : String) (h : e ∈ a) :
    0 ≤ jsIndexOf a e ∧ jsIndexOf a e < a.length := by
  induction a with
  | nil => simp at h
  | cons x xs ih =>
    by_cases hx : x = e
    · rw [jsIndexOf, if_pos hx]
      simp only [List.length_cons]
      omega
    · have hm : e ∈ xs := by
        cases List.mem_cons.mp h with
        | inl h1 => exact absurd h1.symm hx
        | inr h2 => exact h2
      obtain ⟨h0, hlt⟩ := ih hm
      rw [jsIndexOf, if_neg hx, if_neg (by omega)]
      simp only [List.length_cons]
      omega

theorem spliceStart_of_nonneg (len : Nat) (i : Int) (h0 : 0 ≤ i) (hlt : i ≤ len) :
    spliceStart len i = i.toNat := by
  rw [spliceStart, if_neg (by omega)]
  omega

theorem spliceRemoveOne_jsIndexOf_of_mem (a : List String) (e : String) (h : e ∈ a) :
    spliceRemoveOne a (jsIndexOf a e) = a.erase e := by
  induction a with
  | nil => simp at h
  | cons x xs ih =>
    by_cases hx : x = e
    · rw [jsIndexOf, if_pos hx, spliceRemoveOne,
        spliceStart_of_nonneg _ _ (by omega) (by omega)]
      simp [List.erase_cons, hx]
    · have hm : e ∈ xs := by
        cases List.mem_cons.mp h with
        | inl h1 => exact absurd h1.symm hx
        | inr h2 => exact h2
      obtain ⟨h0, hlt⟩ := jsIndexOf_bounds_of_mem xs e hm
      rw [jsIndexOf, if_neg hx, if_neg (by omega)]
      rw [spliceRemoveOne] at ih ⊢
      rw [spliceStart_of_nonneg _ _ (by omega) (by simp only [List.length_cons]; omega)]
      rw [spliceStart_of_nonneg _ _ (by omega) (by omega)] at ih
      have htn : (jsIndexOf xs e + 1).toNat = (jsIndexOf xs e).toNat + 1 := by omega
      rw [htn]
      rw [List.erase_cons_tail (by simpa using hx)]
      simp only [List.take_succ_cons, List.drop_succ_cons, List.cons_append]
      rw [ih hm]

theorem spliceRemoveOne_neg_one (a : List String) :
    spliceRemoveOne a (-1) = a.dropLast := by
  cases a with
  | nil => rfl
  | cons x xs =>
    rw [spliceRemoveOne]
    have ht : spliceStart (x :: xs).length (-1) = (x :: xs).length - 1 := by
      rw [spliceStart, if_pos (by omega)]
      simp only [List.length_cons]
      omega
    rw [ht]
    have hd : (x :: xs).drop ((x :: xs).length - 1 + 1) = [] := by
      apply List.drop_eq_nil_of_le
      simp
    rw [hd, List.append_nil, List.dropLast_eq_take]

/-! Helper lemmas about the enrichment stages. -/

theorem getKeyD_stage1 (lang squares : String) (srec : MetaRecord) (d : Record)
    (k : String) (hk : k ≠ squares) :
    getKeyD (stage1 lang squares srec d) k = getKeyD d k := by
  rw [stage1, getKeyD_setKey, if_neg hk]

theorem getKeyD_stage2_group (group : String) (d1 : Record) :
    getKeyD (stage2 group d1) group = getKeyD d1 group := by
  rw [stage2]
  by_cases hsec : group = "section"
  · subst hsec
    rw [if_pos rfl, getKeyD_setKey, if_neg (by decide)]
  · rw [if_neg hsec]

theorem getKeyD_stage2_icon_of_section (group : String) (d1 : Record)
    (hsec : group = "section") :
    getKeyD (stage2 group d1) "icon"
      = .str ("/static/img/icons/" ++ group ++ "/section_"
          ++ (getKeyD d1 group).toKey ++ ".png") := by
  rw [stage2, if_pos hsec, getKeyD_setKey, if_pos rfl]

theorem hasKey_stage1 (lang squares : String) (srec : MetaRecord) (d : Record)
    (k : String) :
    hasKey (stage1 lang squares srec d) k = (decide (squares = k) || hasKey d k) := by
  rw [stage1, hasKey_setKey]

theorem hasKey_stage2 (group : String) (d1 : Record) (k : String) :
    hasKey (stage2 group d1) k
      = if group = "section" then (decide ("icon" = k) || hasKey d1 k)
        else hasKey d1 k := by
  rw [stage2]
  by_cases hsec : group = "section"
  · rw [if_pos hsec, if_pos hsec, hasKey_setKey]
  · rw [if_neg hsec, if_neg hsec]

theorem hasKey_stage3 (lang group : String) (grec : MetaRecord) (d2 : Record)
    (k : String) :
    hasKey (stage3 lang group grec d2) k = (decide (group = k) || hasKey d2 k) := by
  rw [stage3, hasKey_setKey]

theorem getKeyD_stage3 (lang group : String) (grec : MetaRecord) (d2 : Record)
    (k : String) (hk : k ≠ group) :
    getKeyD (stage3 lang group grec d2) k = getKeyD d2 k := by
  rw [stage3, getKeyD_setKey, if_neg hk]

theorem tryEnrich_some_elim (lang squares group : String) (sm gm : Lookup)
    (d r : Record) (h : tryEnrich lang squares group sm gm d = some r) :
    ∃ srec grec,
      lookupTable sm ((getKeyD d squares).toKey) = some srec ∧
      lookupTable gm
        ((getKeyD (stage2 group (stage1 lang squares srec d)) group).toKey) = some grec ∧
      r = stage3 lang group grec (stage2 group (stage1 lang squares srec d)) := by
  unfold tryEnrich at h
  split at h
  · exact absurd h (by simp)
  · rename_i srec h1
    split at h
    · exact absurd h (by simp)
    · rename_i grec h2
      exact ⟨srec, grec, h1, h2, (Option.some.inj h).symm⟩

theorem tryEnrich_isSome_eq (lang squares group : String) (sm gm : Lookup)
    (d : Record) (hsg : squares ≠ group) :
    (tryEnrich lang squares group sm gm d).isSome = resolvable squares group sm gm d := by
  rw [resolvable]
  unfold tryEnrich
  cases h1 : lookupTable sm ((getKeyD d squares).toKey) with
  | none => simp
  | some srec =>
    simp only [Option.isSome_some, Bool.true_and]
    rw [getKeyD_stage2_group,
      getKeyD_stage1 lang squares srec d group (fun hh => hsg hh.symm)]
    cases h2 : lookupTable gm ((getKeyD d group).toKey) with
    | none => simp
    | some grec => simp

theorem tryEnrich_none_iff_helper (lang squares group : String) (sm gm : Lookup)
    (d : Record) (hsg : squares ≠ group) :
    tryEnrich lang squares group sm gm d = none ↔
      lookupTable sm ((getKeyD d squares).toKey) = none ∨
      lookupTable gm ((getKeyD d group).toKey) = none := by
  have h := tryEnrich_isSome_eq lang squares group sm gm d hsg
  rw [resolvable] at h
  constructor
  · intro hn
    rw [hn] at h
    simp only [Option.isSome_none, Bool.false_eq, Bool.and_eq_false_iff] at h
    cases h with
    | inl h1 => exact Or.inl (Option.not_isSome_iff_eq_none.mp (by simp [h1]))
    | inr h2 => exact Or.inr (Option.not_isSome_iff_eq_none.mp (by simp [h2]))
  · intro hd
    apply Option.not_isSome_iff_eq_none.mp
    rw [h]
    cases hd with
    | inl h1 => simp [h1]
    | inr h2 => simp [h2]

theorem hasKey_tryEnrich (lang squares group : String) (sm gm : Lookup) (d r : Record)
    (k : String) (h : tryEnrich lang squares group sm gm d = some r) :
    hasKey r k = true ↔
      (hasKey d k = true ∨ k = squares ∨ k = group ∨ (group = "section" ∧ k = "icon")) := by
  obtain ⟨srec, grec, h1, h2, rfl⟩ := tryEnrich_some_elim lang squares group sm gm d r h
  rw [hasKey_stage3, hasKey_stage2, hasKey_stage1]
  by_cases hsec : group = "section"
  · rw [if_pos hsec]
    simp only [Bool.or_eq_true, decide_eq_true_eq]
    constructor
    · rintro (hg | hi | hs | hd)
      · exact Or.inr (Or.inr (Or.inl hg.symm))
      · exact Or.inr (Or.inr (Or.inr ⟨hsec, hi.symm⟩))
      · exact Or.inr (Or.inl hs.symm)
      · exact Or.inl hd
    · rintro (hd | rfl | rfl | ⟨hs2, rfl⟩)
      · exact Or.inr (Or.inr (Or.inr hd))
      · exact Or.inr (Or.inr (Or.inl rfl))
      · exact Or.inl rfl
      · exact Or.inr (Or.inl rfl)
  · rw [if_neg hsec]
    simp only [Bool.or_eq_true, decide_eq_true_eq]
    constructor
    · rintro (hg | hs | hd)
      · exact Or.inr (Or.inr (Or.inl hg.symm))
      · exact Or.inr (Or.inl hs.symm)
      · exact Or.inl hd
    · rintro (hd | rfl | rfl | ⟨hs2, rfl⟩)
      · exact Or.inr (Or.inr hd)
      · exact Or.inr (Or.inl rfl)
      · exact Or.inl rfl
      · exact absurd hs2 hsec

theorem getKeyD_icon_tryEnrich (lang squares group : String) (sm gm : Lookup)
    (d r : Record) (hsg : squares ≠ group) (hsec : group = "section")
    (h : tryEnrich lang squares group sm gm d = some r) :
    getKeyD r "icon"
      = .str ("/static/img/icons/" ++ group ++ "/section_"
          ++ (getKeyD d group).toKey ++ ".png") := by
  obtain ⟨srec, grec, h1, h2, rfl⟩ := tryEnrich_some_elim lang squares group sm gm d r h
  rw [getKeyD_stage3 _ _ _ _ _ (by rw [hsec]; decide),
    getKeyD_stage2_icon_of_section _ _ hsec,
    getKeyD_stage1 lang squares srec d group (fun hh => hsg hh.symm)]

/-! Helper lemmas about `enrichLoop` as a filter. -/

theorem enrichLoop_eq_filterMap (lang squares group : String) (sm gm : Lookup)
    (ds : List Record) :
    enrichLoop lang squares group sm gm ds
      = ds.filterMap (tryEnrich lang squares group sm gm) := by
  induction ds with
  | nil => rfl
  | cons d rest ih =>
    rw [enrichLoop, List.filterMap_cons]
    cases tryEnrich lang squares group sm gm d <;> simp [ih]

theorem buildData_eq_filterMap (lang squares group : String) (T : Table)
    (sm gm : Lookup) :
    buildData lang squares group T sm gm
      = (T.data.map (buildItem T.headers)).filterMap
          (tryEnrich lang squares group sm gm) := by
  rw [buildData, enrichLoop_eq_filterMap]

theorem length_filterMap_eq_iff {α β : Type} (f : α → Option β) (l : List α) :
    (l.filterMap f).length = l.length ↔ ∀ a ∈ l, (f a).isSome = true := by
  induction l with
  | nil => simp
  | cons a t ih =>
    cases h : f a with
    | none =>
      simp only [List.filterMap_cons, h, List.length_cons, List.mem_cons]
      constructor
      · intro hlen
        have hle := List.length_filterMap_le f t
        omega
      · intro hall
        have := hall a (Or.inl rfl)
        rw [h] at this
        simp at this
    | some b =>
      simp only [List.filterMap_cons, h, List.length_cons, List.mem_cons]
      constructor
      · intro hlen a1 ha1
        cases ha1 with
        | inl he => rw [he, h]; rfl
        | inr ht => exact (ih.mp (by omega)) a1 ht
      · intro hall
        have := ih.mpr (fun a1 ha1 => hall a1 (Or.inr ha1))
        omega

theorem filterMap_eq_map_filter {α : Type} (f : α → Option α) (l : List α) :
    l.filterMap f
      = (l.filter (fun a => (f a).isSome)).map (fun a => (f a).getD a) := by
  induction l with
  | nil => rfl
  | cons a t ih =>
    cases h : f a with
    | none => simp [List.filterMap_cons, List.filter_cons, h, ih]
    | some b => simp [List.filterMap_cons, List.filter_cons, h, ih]

/-! Claim theorems. -/

/-- Claim C2: when `currentLevel` occurs exactly once in the depth sequence,
`depthSelectorHelper` returns exactly the input levels with `currentLevel`
moved to index 0 and the relative order of the others unchanged, each level
wrapped as a single labeled entry `(dictionary level, level)`; the sequence
of level identifiers is a permutation of the input. -/
theorem depthSelectorHelper_moves_current_front (dictionary : String → String)
    (a : List String) (e : String) (h : a.count e = 1) :
    depthSelectorHelper dictionary a e
      = (e :: a.erase e).map (fun x => (dictionary x, x)) ∧
    ((depthSelectorHelper dictionary a e).map Prod.snd).Perm a := by
  have hm : e ∈ a := by
    have hp : 0 < a.count e := by omega
    exact List.count_pos_iff.mp hp
  have heq : depthSelectorHelper dictionary a e
      = (e :: a.erase e).map (fun x => (dictionary x, x)) := by
    rw [depthSelectorHelper, spliceRemoveOne_jsIndexOf_of_mem a e hm]
  refine ⟨heq, ?_⟩
  rw [heq, List.map_map]
  have hsnd : (Prod.snd ∘ fun x : String => (dictionary x, x)) = id := rfl
  rw [hsnd, List.map_id]
  exact (List.perm_cons_erase hm).symm

/-- Witness for C2 at the example of the spec: `["a","b","c"]` with current
level `"b"`. -/
theorem depthSelectorHelper_moves_current_front_witness :
    (["a", "b", "c"] : List String).count "b" = 1 ∧
    (depthSelectorHelper demoDict ["a", "b", "c"] "b"
        = ("b" :: (["a", "b", "c"] : List String).erase "b").map
            (fun x => (demoDict x, x)) ∧
      ((depthSelectorHelper demoDict ["a", "b", "c"] "b").map Prod.snd).Perm
        ["a", "b", "c"]) :=
  ⟨by decide, depthSelectorHelper_moves_current_front demoDict ["a", "b", "c"] "b" (by decide)⟩

/-- Counterexample to C3: with `"c"` absent from `["a","b"]`, the helper
returns normally a sequence whose level identifiers are `["c","a"]` — the
level `"b"` has been dropped and the foreign element `"c"` inserted, with no
failure: the ordering is silently corrupted. -/
theorem depthSelectorHelper_silently_corrupts :
    "c" ∉ (["a", "b"] : List String) ∧
    depthSelectorHelper demoDict ["a", "b"] "c" = [("Lc", "c"), ("La", "a")] ∧
    "b" ∉ ((depthSelectorHelper demoDict ["a", "b"] "c").map Prod.snd) ∧
    "c" ∈ ((depthSelectorHelper demoDict ["a", "b"] "c").map Prod.snd) :=
  ⟨by decide, by decide, by decide, by decide⟩

/-- Claim C3 amended: when `currentLevel` is absent from the depth sequence,
`depthSelectorHelper` does not fail fast; `indexOf` returns -1, `splice(-1,1)`
removes the last level, and the helper returns `currentLevel` prepended to
the sequence with its last level dropped — a silent corruption of the
ordering. -/
theorem depthSelectorHelper_absent_drops_last (dictionary : String → String)
    (a : List String) (e : String) (h : e ∉ a) :
    depthSelectorHelper dictionary a e
      = (e :: a.dropLast).map (fun x => (dictionary x, x)) := by
  rw [depthSelectorHelper, jsIndexOf_of_not_mem a e h, spliceRemoveOne_neg_one]

/-- Witness for the amended C3 at `["a","b"]` with absent level `"c"`. -/
theorem depthSelectorHelper_absent_drops_last_witness :
    ("c" ∉ (["a", "b"] : List String)) ∧
    depthSelectorHelper demoDict ["a", "b"] "c"
      = ("c" :: (["a", "b"] : List String).dropLast).map (fun x => (demoDict x, x)) :=
  ⟨by decide, depthSelectorHelper_absent_drops_last demoDict ["a", "b"] "c" (by decide)⟩

/-- Claim C6: the text-formatting rule of the render configuration returns the
localized label exactly for the literal texts "value" and "share" and passes
any other text through unchanged. -/
theorem formatText_localizes_value_share (dictionary : String → String) (text : String) :
    (text = "value" → formatText dictionary text = dictionary "value") ∧
    (text = "share" → formatText dictionary text = dictionary "share") ∧
    (text ≠ "value" → text ≠ "share" → formatText dictionary text = text) := by
  refine ⟨?_, ?_, ?_⟩
  · rintro rfl
    rw [formatText, if_pos (by decide)]
  · rintro rfl
    rw [formatText, if_pos (by decide)]
  · intro h1 h2
    rw [formatText, if_neg (by simp [h1, h2])]

/-- Witness for C6 on the literal "value" and on a pass-through text. -/
theorem formatText_localizes_value_share_witness :
    (("value" : String) = "value") ∧
    formatText demoDict "value" = demoDict "value" ∧
    formatText demoDict "anything_else" = "anything_else" :=
  ⟨rfl, (formatText_localizes_value_share demoDict "value").1 rfl,
    (formatText_localizes_value_share demoDict "anything_else").2.2
      (by decide) (by decide)⟩

/-- Claim C7: `buildData` has no effect beyond returning the new array — the
observation table and the two lookup tables are only read, so the state after
the call equals the state before it. -/
theorem buildData_pure (lang squares group : String) (s : PipelineState) :
    (buildDataSt lang squares group s).2 = s ∧
    (buildDataSt lang squares group s).1
      = buildData lang squares group s.responseApi s.squaresMetadata s.groupMetadata := by
  cases s
  exact ⟨rfl, rfl⟩

/-- Claim C8: exactly three locators are derived — squares metadata, group
metadata with the `section → product_section` alias, and the dataset locator
`<dataset>/year/<squares>/<group>?<filters>`. -/
theorem urls_locators (squares group dataset filters : String) :
    (urls squares group dataset filters).length = 3 ∧
    (urls squares group dataset filters).getD 0 ""
      = "http://api.staging.dataviva.info/metadata/" ++ squares ∧
    (group = "section" →
      (urls squares group dataset filters).getD 1 ""
        = "http://api.staging.dataviva.info/metadata/product_section") ∧
    (group ≠ "section" →
      (urls squares group dataset filters).getD 1 ""
        = "http://api.staging.dataviva.info/metadata/" ++ group) ∧
    (urls squares group dataset filters).getD 2 ""
      = "http://api.staging.dataviva.info/" ++ dataset ++ "/year/" ++ squares
          ++ "/" ++ group ++ "?" ++ filters := by
  refine ⟨rfl, rfl, ?_, ?_, rfl⟩
  · intro hs
    simp [urls, hs]
  · intro hs
    simp [urls, hs]

/-- Witness for C8: both branches of the group alias at concrete attributes. -/
theorem urls_locators_witness :
    ((urls "sq" "section" "ds" "f").getD 1 ""
      = "http://api.staging.dataviva.info/metadata/product_section") ∧
    (("g" : String) ≠ "section") ∧
    ((urls "sq" "g" "ds" "f").getD 1 ""
      = "http://api.staging.dataviva.info/metadata/" ++ "g") :=
  ⟨(urls_locators "sq" "section" "ds" "f").2.2.1 rfl,
   by decide,
   (urls_locators "sq" "g" "ds" "f").2.2.2.1 (by decide)⟩

/-- Claim C9: `depthSelectorHelper` does not mutate its input array: it works
on a `slice(0)` copy, and the input holds the same elements in the same order
after the call. -/
theorem depthSelectorHelper_pure (dictionary : String → String) (a : List String)
    (e : String) :
    (depthSelectorHelperSt dictionary a e).2 = a ∧
    (depthSelectorHelperSt dictionary a e).1 = depthSelectorHelper dictionary a e := by
  refine ⟨rfl, ?_⟩
  simp [depthSelectorHelperSt, depthSelectorHelper, List.take_length]

/-- Counterexample to C1: the entity lookup has a record for code "E1" but
that record lacks the `name_en` field; the claim says the row must be
excluded entirely, yet `buildData` emits it as a record with `undefined` in
the entity column (reading a missing field does not throw). -/
theorem buildData_keeps_row_on_missing_field :
    buildData "en" "e" "g" ⟨["e", "g"], [[.str "E1", .str "G1"]]⟩
        [("E1", [])] [("G1", [("name_en", "G")])]
      = [[("e", Value.undefined), ("g", Value.str "G")]] ∧
    getField [] "name_en" = none :=
  ⟨rfl, rfl⟩

/-- Claim C1 amended: `buildData` filters the built rows with `tryEnrich`,
and (for distinct entity and group columns) a row is excluded exactly when
its entity code or its group code is a missing key of the respective lookup
table; a present record lacking the localized `name_<lang>` field does not
exclude the row — it is emitted with an `undefined` value there. -/
theorem buildData_exclusion_policy (lang squares group : String) (T : Table)
    (sm gm : Lookup) (hsg : squares ≠ group) :
    buildData lang squares group T sm gm
      = (T.data.map (buildItem T.headers)).filterMap (tryEnrich lang squares group sm gm) ∧
    ∀ d : Record, tryEnrich lang squares group sm gm d = none ↔
      (lookupTable sm ((getKeyD d squares).toKey) = none ∨
       lookupTable gm ((getKeyD d group).toKey) = none) :=
  ⟨buildData_eq_filterMap lang squares group T sm gm,
   fun d => tryEnrich_none_iff_helper lang squares group sm gm d hsg⟩

/-- Witness for the amended C1: entity column "e", group column "g". -/
theorem buildData_exclusion_policy_witness :
    (("e" : String) ≠ "g") ∧
    buildData "en" "e" "g" ⟨["e", "g"], [[.str "E1", .str "G1"]]⟩
        [("E1", [])] [("G1", [("name_en", "G")])]
      = ((⟨["e", "g"], [[.str "E1", .str "G1"]]⟩ : Table).data.map
          (buildItem ["e", "g"])).filterMap
          (tryEnrich "en" "e" "g" [("E1", [])] [("G1", [("name_en", "G")])]) :=
  ⟨by decide,
   (buildData_exclusion_policy "en" "e" "g" ⟨["e", "g"], [[.str "E1", .str "G1"]]⟩
      [("E1", [])] [("G1", [("name_en", "G")])] (by decide)).1⟩

/-- Counterexample to C4: when the observation table itself has a column
named "icon" and the grouping column is "g" (not "section"), the output
record carries an `icon` field holding the raw row value — so the icon field
is not present only when the grouping column equals "section". -/
theorem buildData_icon_leak :
    buildData "en" "e" "g" ⟨["e", "g", "icon"], [[.str "E1", .str "G1", .str "X"]]⟩
        [("E1", [("name_en", "E")])] [("G1", [("name_en", "G")])]
      = [[("e", Value.str "E"), ("g", Value.str "G"), ("icon", Value.str "X")]] ∧
    hasKey [("e", Value.str "E"), ("g", Value.str "G"), ("icon", Value.str "X")] "icon"
      = true ∧
    ("g" : String) ≠ "section" :=
  ⟨rfl, rfl, by decide⟩

/-- Claim C4 amended: provided no observation column is named "icon" and
neither designated column is named "icon" (and the two designated columns are
distinct), every output record has an icon field iff the grouping column is
the literal "section", and the icon value is the fixed base path, the group
column name, the literal "section_", the raw group code of the row, and
".png". -/
theorem buildData_icon_iff_section (lang squares group : String) (T : Table)
    (sm gm : Lookup) (hsg : squares ≠ group) (hhi : "icon" ∉ T.headers)
    (hsi : squares ≠ "icon") (hgi : group ≠ "icon") :
    (∀ r ∈ buildData lang squares group T sm gm,
        (hasKey r "icon" = true ↔ group = "section")) ∧
    (∀ item r, tryEnrich lang squares group sm gm (buildItem T.headers item) = some r →
        group = "section" →
        getKeyD r "icon"
          = .str ("/static/img/icons/" ++ group ++ "/section_"
              ++ (getKeyD (buildItem T.headers item) group).toKey ++ ".png")) := by
  constructor
  · intro r hr
    rw [buildData_eq_filterMap] at hr
    obtain ⟨d, hd, henr⟩ := List.mem_filterMap.mp hr
    obtain ⟨item, hitem, rfl⟩ := List.mem_map.mp hd
    rw [hasKey_tryEnrich _ _ _ _ _ _ _ _ henr]
    constructor
    · rintro (hdk | hks | hkg | ⟨hs, _⟩)
      · exact absurd ((hasKey_buildItem _ _ _).mp hdk) hhi
      · exact absurd hks.symm hsi
      · exact absurd hkg.symm hgi
      · exact hs
    · intro hs
      exact Or.inr (Or.inr (Or.inr ⟨hs, rfl⟩))
  · intro item r henr hsec
    exact getKeyD_icon_tryEnrich lang squares group sm gm _ r hsg hsec henr

/-- Witness for the amended C4 at a small table with distinct columns. -/
theorem buildData_icon_iff_section_witness :
    (("e" : String) ≠ "g") ∧ ("icon" ∉ (["e", "g"] : List String)) ∧
    (("e" : String) ≠ "icon") ∧ (("g" : String) ≠ "icon") ∧
    (∀ r ∈ buildData "en" "e" "g" ⟨["e", "g"], [[.str "E1", .str "G1"]]⟩
        [("E1", [("name_en", "E")])] [("G1", [("name_en", "G")])],
      (hasKey r "icon" = true ↔ ("g" : String) = "section")) :=
  ⟨by decide, by decide, by decide, by decide,
   (buildData_icon_iff_section "en" "e" "g" ⟨["e", "g"], [[.str "E1", .str "G1"]]⟩
      [("E1", [("name_en", "E")])] [("G1", [("name_en", "G")])]
      (by decide) (by decide) (by decide) (by decide)).1⟩

/-- Claim C5: the output has at most one record per input row, in original
relative order — it is exactly the resolvable built rows, each enriched —
with equality of row counts iff every row resolves both codes. -/
theorem buildData_row_correspondence (lang squares group : String) (T : Table)
    (sm gm : Lookup) (hsg : squares ≠ group) :
    (buildData lang squares group T sm gm).length ≤ T.data.length ∧
    ((buildData lang squares group T sm gm).length = T.data.length ↔
        ∀ item ∈ T.data, resolvable squares group sm gm (buildItem T.headers item) = true) ∧
    buildData lang squares group T sm gm
      = ((T.data.map (buildItem T.headers)).filter (resolvable squares group sm gm)).map
          (fun d => (tryEnrich lang squares group sm gm d).getD d) := by
  have hfm := buildData_eq_filterMap lang squares group T sm gm
  have hlen : (T.data.map (buildItem T.headers)).length = T.data.length :=
    List.length_map _ _
  refine ⟨?_, ?_, ?_⟩
  · rw [hfm]
    have h1 := List.length_filterMap_le (tryEnrich lang squares group sm gm)
      (T.data.map (buildItem T.headers))
    omega
  · rw [hfm, ← hlen, length_filterMap_eq_iff]
    constructor
    · intro hall item hitem
      have hh := hall (buildItem T.headers item) (List.mem_map_of_mem _ hitem)
      rw [tryEnrich_isSome_eq _ _ _ _ _ _ hsg] at hh
      exact hh
    · intro hall d hd
      obtain ⟨item, hitem, rfl⟩ := List.mem_map.mp hd
      rw [tryEnrich_isSome_eq _ _ _ _ _ _ hsg]
      exact hall item hitem
  · rw [hfm, filterMap_eq_map_filter]
    congr 1
    apply List.filter_congr
    intro d hd
    rw [tryEnrich_isSome_eq _ _ _ _ _ _ hsg]

/-- Witness for C5: one row, both codes resolvable. -/
theorem buildData_row_correspondence_witness :
    (("e" : String) ≠ "g") ∧
    (buildData "en" "e" "g" ⟨["e", "g"], [[.str "E1", .str "G1"]]⟩
        [("E1", [("name_en", "E")])] [("G1", [("name_en", "G")])]).length
      ≤ ([[Value.str "E1", Value.str "G1"]] : List (List Value)).length :=
  ⟨by decide,
   (buildData_row_correspondence "en" "e" "g" ⟨["e", "g"], [[.str "E1", .str "G1"]]⟩
      [("E1", [("name_en", "E")])] [("G1", [("name_en", "G")])] (by decide)).1⟩

/-- Claim C10: provided the entity and group columns are actual headers of
the observation table, the key set of every output record is exactly the header
set, plus the single key "icon" exactly when the grouping column is
"section". -/
theorem buildData_record_keys (lang squares group : String) (T : Table) (sm gm : Lookup)
    (hsq : squares ∈ T.headers) (hgr : group ∈ T.headers) :
    ∀ r ∈ buildData lang squares group T sm gm, ∀ k : String,
      hasKey r k = true ↔ (k ∈ T.headers ∨ (group = "section" ∧ k = "icon")) := by
  intro r hr k
  rw [buildData_eq_filterMap] at hr
  obtain ⟨d, hd, henr⟩ := List.mem_filterMap.mp hr
  obtain ⟨item, hitem, rfl⟩ := List.mem_map.mp hd
  rw [hasKey_tryEnrich _ _ _ _ _ _ _ _ henr]
  constructor
  · rintro (hdk | rfl | rfl | ⟨hs, rfl⟩)
    · exact Or.inl ((hasKey_buildItem _ _ _).mp hdk)
    · exact Or.inl hsq
    · exact Or.inl hgr
    · exact Or.inr ⟨hs, rfl⟩
  · rintro (hk | ⟨hs, rfl⟩)
    · exact Or.inl ((hasKey_buildItem _ _ _).mpr hk)
    · exact Or.inr (Or.inr (Or.inr ⟨hs, rfl⟩))

/-- Witness for C10 at a two-column table. -/
theorem buildData_record_keys_witness :
    (("e" : String) ∈ (["e", "g"] : List String)) ∧
    (("g" : String) ∈ (["e", "g"] : List String)) ∧
    (∀ r ∈ buildData "en" "e" "g" ⟨["e", "g"], [[.str "E1", .str "G1"]]⟩
        [("E1", [("name_en", "E")])] [("G1", [("name_en", "G")])],
      ∀ k : String,
        hasKey r k = true ↔ (k ∈ (["e", "g"] : List String) ∨ (("g" : String) = "section" ∧ k = "icon"))) :=
  ⟨by decide, by decide,
   buildData_record_keys "en" "e" "g" ⟨["e", "g"], [[.str "E1", .str "G1"]]⟩
      [("E1", [("name_en", "E")])] [("G1", [("name_en", "G")])] (by decide) (by decide)⟩

end TreeMap
